import Mathlib

/-!
Verification development for the indicator computation and refresh engine of the
market-data repository.

The numeric kernels live in `src/archive/indicators_helper.py` (pandas code over
float64 series) and `src/services/indicators/trend.py`; the refresh orchestrator
in `src/services/indicator_service.py`; the SQL upsert templates in
`src/db/sql.py`.

Embedding conventions:
- a pandas float cell is `Option ℚ`, with `none` playing the role of NaN and
  exact rationals idealizing float64 arithmetic;
- Python float comparisons against NaN are false, which the `Option`-matching
  definitions below reproduce case by case;
- a pandas Series is a `List (Option ℚ)` (or `List ℚ` where the source column
  can hold no NaN);
- `Series.ewm(alpha, adjust=False, ignore_na=False, min_periods).mean()` is
  embedded by the exact state recursion pandas implements (observation count,
  decayed old weight, running weighted average);
- `.round(n)` is numpy round-half-even at `n` decimals, embedded exactly.
-/

set_option maxHeartbeats 3200000

namespace MarketData

/-- A pandas float64 cell: `none` is NaN, `some q` a (rational-idealized) number. -/
abbrev F := Option ℚ

/-- NaN-propagating addition. -/
def oadd : F → F → F
  | some a, some b => some (a + b)
  | _, _ => none

/-- NaN-propagating subtraction. -/
def osub : F → F → F
  | some a, some b => some (a - b)
  | _, _ => none

/-- NaN-propagating multiplication. -/
def omul : F → F → F
  | some a, some b => some (a * b)
  | _, _ => none

/-- NaN-propagating division.  The zero-denominator branch returns `none`; in the
source the only division (`rs = avg_gain / avg_loss.replace(0, np.nan)`) replaces
a zero denominator by NaN first, so that branch is never taken there. -/
def odiv : F → F → F
  | some a, some b => if b = 0 then none else some (a / b)
  | _, _ => none

/-- Round-half-even to an integer (numpy/Python `round` tie-breaking), on any
linear ordered field with a floor. -/
def rhe {α : Type} [LinearOrderedField α] [FloorRing α] (x : α) : ℤ :=
  if Int.fract x < 1/2 then ⌊x⌋
  else if 1/2 < Int.fract x then ⌊x⌋ + 1
  else if ⌊x⌋ % 2 = 0 then ⌊x⌋ else ⌊x⌋ + 1

/-- `Series.round(d)`: scale by `10^d`, round half-even, scale back. -/
def roundTo {α : Type} [LinearOrderedField α] [FloorRing α] (d : ℕ) (x : α) : α :=
  (rhe (x * 10 ^ d) : α) / 10 ^ d

theorem rhe_le (α : Type) [LinearOrderedField α] [FloorRing α] (x : α) :
    rhe x ≤ ⌊x⌋ + 1 := by
  unfold rhe; split_ifs <;> omega

theorem le_rhe (α : Type) [LinearOrderedField α] [FloorRing α] (x : α) :
    ⌊x⌋ ≤ rhe x := by
  unfold rhe; split_ifs <;> omega

theorem rhe_mono {α : Type} [LinearOrderedField α] [FloorRing α] {x y : α}
    (h : x ≤ y) : rhe x ≤ rhe y := by
  rcases lt_or_eq_of_le (Int.floor_le_floor h) with hf | hf
  · calc rhe x ≤ ⌊x⌋ + 1 := rhe_le α x
    _ ≤ ⌊y⌋ := by omega
    _ ≤ rhe y := le_rhe α y
  · have hfr : Int.fract x ≤ Int.fract y := by
      unfold Int.fract
      have : ((⌊x⌋ : ℤ) : α) = ((⌊y⌋ : ℤ) : α) := by rw [hf]
      linarith
    unfold rhe
    rw [hf] at *
    split_ifs <;> first | omega | linarith

theorem roundTo_mono {α : Type} [LinearOrderedField α] [FloorRing α] (d : ℕ)
    {x y : α} (h : x ≤ y) : roundTo d x ≤ roundTo d y := by
  unfold roundTo
  have hp : (0:α) < 10 ^ d := by positivity
  have : rhe (x * 10 ^ d) ≤ rhe (y * 10 ^ d) :=
    rhe_mono (mul_le_mul_of_nonneg_right h (le_of_lt hp))
  exact div_le_div_of_nonneg_right (by exact_mod_cast this) hp.le

/-! ### The pandas exponentially weighted mean

`Series.ewm(alpha=a, adjust=False, ignore_na=False, min_periods=minp).mean()`
keeps, while scanning the series, the number of non-NaN observations seen, the
decayed weight of the running average, and the running average itself.  A NaN
input leaves the average unchanged but decays its weight; an observation after
the first updates `avg := (oldWt*(1-a)*avg + a*x) / (oldWt*(1-a) + a)` and
resets `oldWt := 1` (the `adjust=False` rule).  The output at a position is the
running average if at least `minp` observations have been seen, else NaN. -/

structure EwmState where
  nobs : ℕ
  oldWt : ℚ
  avg : F
  deriving DecidableEq

def ewmStep (a : ℚ) (st : EwmState) (x : F) : EwmState :=
  match x, st.avg with
  | some v, some m =>
      { nobs := st.nobs + 1, oldWt := 1,
        avg := some ((st.oldWt * (1 - a) * m + a * v) / (st.oldWt * (1 - a) + a)) }
  | some v, none => { nobs := st.nobs + 1, oldWt := 1, avg := some v }
  | none, some m => { nobs := st.nobs, oldWt := st.oldWt * (1 - a), avg := some m }
  | none, none => st

def ewmOut (minp : ℕ) (st : EwmState) : F :=
  if minp ≤ st.nobs then st.avg else none

def ewmGo (a : ℚ) (minp : ℕ) (st : EwmState) : List F → List F
  | [] => []
  | x :: xs => ewmOut minp (ewmStep a st x) :: ewmGo a minp (ewmStep a st x) xs

def ewmMean (a : ℚ) (minp : ℕ) (xs : List F) : List F :=
  ewmGo a minp ⟨0, 1, none⟩ xs

theorem ewmGo_length (a : ℚ) (minp : ℕ) (st : EwmState) (xs : List F) :
    (ewmGo a minp st xs).length = xs.length := by
  induction xs generalizing st with
  | nil => rfl
  | cons x xs ih => simp [ewmGo, ih]

theorem ewmMean_length (a : ℚ) (minp : ℕ) (xs : List F) :
    (ewmMean a minp xs).length = xs.length := ewmGo_length ..

/-- The plain exponential recurrence, state threaded through the list:
`emaSeq a m ys j` is the running average after folding `ys.take (j+1)` into `m`. -/
def emaSeq (a : ℚ) : ℚ → List ℚ → ℕ → ℚ
  | m, [], _ => m
  | m, y :: _, 0 => (1 - a) * m + a * y
  | m, y :: ys, j+1 => emaSeq a ((1 - a) * m + a * y) ys j

/-- The recurrence in the indexed form used by the spec: seeded at the first
element, `E[i+1] = (1-a)*E[i] + a*x[i+1]`. -/
def emaFrom (a : ℚ) (xs : List ℚ) : ℕ → ℚ
  | 0 => xs.getD 0 0
  | i+1 => (1 - a) * emaFrom a xs i + a * xs.getD (i+1) 0

theorem ewmStep_some_some (a : ℚ) (k : ℕ) (m y : ℚ) :
    ewmStep a ⟨k, 1, some m⟩ (some y) = ⟨k + 1, 1, some ((1 - a) * m + a * y)⟩ := by
  have h1 : (1:ℚ) * (1 - a) + a = 1 := by ring
  have h2 : (1:ℚ) * (1 - a) * m + a * y = (1 - a) * m + a * y := by ring
  simp [ewmStep, h1, h2]

theorem ewmGo_map_some (a : ℚ) (minp : ℕ) :
    ∀ (ys : List ℚ) (k : ℕ) (m : ℚ) (j : ℕ), j < ys.length →
    (ewmGo a minp ⟨k, 1, some m⟩ (ys.map some)).getD j none =
      if k + j + 1 < minp then none else some (emaSeq a m ys j) := by
  intro ys
  induction ys with
  | nil => intro k m j hj; simp at hj
  | cons y ys ih =>
      intro k m j hj
      rw [List.map_cons]
      rw [show ewmGo a minp ⟨k, 1, some m⟩ (some y :: ys.map some) =
        ewmOut minp (ewmStep a ⟨k, 1, some m⟩ (some y)) ::
          ewmGo a minp (ewmStep a ⟨k, 1, some m⟩ (some y)) (ys.map some) from rfl]
      rw [ewmStep_some_some]
      cases j with
      | zero =>
          by_cases hmp : k + 0 + 1 < minp
          · rw [if_pos hmp]
            simp only [List.getD_cons_zero, ewmOut]
            rw [if_neg (by omega)]
          · rw [if_neg hmp]
            simp only [List.getD_cons_zero, ewmOut]
            rw [if_pos (by omega)]
            rfl
      | succ j' =>
          rw [List.getD_cons_succ]
          rw [ih (k + 1) ((1 - a) * m + a * y) j' (by simpa using hj)]
          have hc : k + 1 + j' + 1 = k + (j' + 1) + 1 := by omega
          rw [hc]
          rfl

theorem emaFrom_shift (a x0 y : ℚ) (ys : List ℚ) (j : ℕ) :
    emaFrom a (((1 - a) * x0 + a * y) :: ys) j = emaFrom a (x0 :: y :: ys) (j + 1) := by
  induction j with
  | zero => simp [emaFrom]
  | succ j ih => simp only [emaFrom, ih, List.getD_cons_succ]

theorem emaSeq_eq_emaFrom (a : ℚ) :
    ∀ (ys : List ℚ) (x0 : ℚ) (j : ℕ), j < ys.length →
    emaSeq a x0 ys j = emaFrom a (x0 :: ys) (j + 1) := by
  intro ys
  induction ys with
  | nil => intro x0 j hj; simp at hj
  | cons y ys ih =>
      intro x0 j hj
      cases j with
      | zero => simp [emaSeq, emaFrom]
      | succ j' =>
          rw [show emaSeq a x0 (y :: ys) (j' + 1) =
            emaSeq a ((1 - a) * x0 + a * y) ys j' from rfl]
          rw [ih ((1 - a) * x0 + a * y) j' (by simpa using hj)]
          exact emaFrom_shift a x0 y ys (j' + 1)

/-- Behaviour of the Wilder/EMA smoother on an all-valid input series: NaN while
fewer than `minp` observations have been seen, and afterwards exactly the
exponential recurrence seeded with the first input value. -/
theorem ewmMean_map_some (a : ℚ) (minp : ℕ) (xs : List ℚ) (i : ℕ)
    (hi : i < xs.length) :
    (ewmMean a minp (xs.map some)).getD i none =
      if i + 1 < minp then none else some (emaFrom a xs i) := by
  cases xs with
  | nil => simp at hi
  | cons x0 rest =>
      rw [ewmMean, List.map_cons]
      rw [show ewmGo a minp ⟨0, 1, none⟩ (some x0 :: rest.map some) =
        ewmOut minp (ewmStep a ⟨0, 1, none⟩ (some x0)) ::
          ewmGo a minp (ewmStep a ⟨0, 1, none⟩ (some x0)) (rest.map some) from rfl]
      rw [show ewmStep a ⟨0, 1, none⟩ (some x0) = (⟨1, 1, some x0⟩ : EwmState) from rfl]
      cases i with
      | zero =>
          by_cases hmp : 0 + 1 < minp
          · rw [if_pos hmp]
            simp only [List.getD_cons_zero, ewmOut]
            rw [if_neg (by omega)]
          · rw [if_neg hmp]
            simp only [List.getD_cons_zero, ewmOut]
            rw [if_pos (by omega)]
            rfl
      | succ i' =>
          rw [List.getD_cons_succ]
          rw [ewmGo_map_some a minp rest 1 x0 i' (by simpa using hi)]
          have hc : 1 + i' + 1 = i' + 1 + 1 := by omega
          rw [hc]
          by_cases hm : i' + 1 + 1 < minp
          · rw [if_pos hm, if_pos hm]
          · rw [if_neg hm, if_neg hm]
            rw [emaSeq_eq_emaFrom a rest x0 i' (by simpa using hi)]

/-! ### Generic list access lemmas -/

theorem getD_zipWith {α β γ : Type} (f : α → β → γ) (l₁ : List α) (l₂ : List β)
    (i : ℕ) (d₁ : α) (d₂ : β) (dc : γ) (h₁ : i < l₁.length) (h₂ : i < l₂.length) :
    (List.zipWith f l₁ l₂).getD i dc = f (l₁.getD i d₁) (l₂.getD i d₂) := by
  induction l₁ generalizing l₂ i with
  | nil => simp at h₁
  | cons a l ih =>
      cases l₂ with
      | nil => simp at h₂
      | cons b l' =>
          cases i with
          | zero => rfl
          | succ i' =>
              simp only [List.zipWith_cons_cons, List.getD_cons_succ]
              exact ih l' i' (by simpa using h₁) (by simpa using h₂)

theorem getD_map {α β : Type} (f : α → β) (l : List α) (i : ℕ) (d : α) (db : β)
    (h : i < l.length) : (l.map f).getD i db = f (l.getD i d) := by
  induction l generalizing i with
  | nil => simp at h
  | cons a l ih =>
      cases i with
      | zero => rfl
      | succ i' => exact ih i' (by simpa using h)

theorem getD_of_length_le {α : Type} (l : List α) (i : ℕ) (d : α)
    (h : l.length ≤ i) : l.getD i d = d := by
  induction l generalizing i with
  | nil => simp [List.getD]
  | cons a l ih =>
      cases i with
      | zero => simp at h
      | succ i' => exact ih i' (by simpa using h)

/-! ### Rolling-window primitives

`Series.rolling(p).mean() / .std() / .apply(f)` with the pandas default
`min_periods = p`: the output at position `i` is defined only when the trailing
window of size `p` exists (`p ≤ i+1`) and contains no NaN, in which case `f` is
applied to the window values. -/

def rollingApply (p : ℕ) (f : List ℚ → ℚ) (xs : List F) : List F :=
  (List.range xs.length).map fun i =>
    if p ≤ i + 1 then
      match ((xs.take (i + 1)).drop (i + 1 - p)).mapM id with
      | some w => some (f w)
      | none => none
    else none

theorem rollingApply_length (p : ℕ) (f : List ℚ → ℚ) (xs : List F) :
    (rollingApply p f xs).length = xs.length := by
  simp [rollingApply]

/-- The window mean used by `rolling(p).mean()`. -/
def windowMean (w : List ℚ) : ℚ := w.sum / (w.length : ℚ)

/-- Sample variance (`ddof = 1`) of a window, the square of the pandas rolling
standard deviation.  (For one-element windows the source yields NaN where this
rational division by zero yields 0; the only use, Bollinger, has `p = 20`.) -/
def sampleVar (w : List ℚ) : ℚ :=
  (w.map fun x => (x - windowMean w) ^ 2).sum / ((w.length : ℚ) - 1)

/-! ### RSI — `calculate_rsi_series` from `src/archive/indicators_helper.py` -/

/-- `close.diff()`: NaN at the first position, successive differences after. -/
def diffL (xs : List ℚ) : List F :=
  match xs with
  | [] => []
  | _ :: _ => none :: (xs.zip xs.tail).map fun pr => some (pr.2 - pr.1)

/-- `delta.clip(lower=0)`. -/
def gains (close : List ℚ) : List F :=
  (diffL close).map (Option.map fun d => max d 0)

/-- `-delta.clip(upper=0)`. -/
def losses (close : List ℚ) : List F :=
  (diffL close).map (Option.map fun d => -(min d 0))

def avg_gain (close : List ℚ) (p : ℕ) : List F :=
  ewmMean (1 / (p : ℚ)) p (gains close)

def avg_loss (close : List ℚ) (p : ℕ) : List F :=
  ewmMean (1 / (p : ℚ)) p (losses close)

/-- `avg_loss.replace(0, np.nan)`. -/
def replZeroNaN : F → F
  | some q => if q = 0 then none else some q
  | none => none

/-- `rs = avg_gain / avg_loss.replace(0, np.nan)`. -/
def rsL (close : List ℚ) (p : ℕ) : List F :=
  List.zipWith odiv (avg_gain close p) ((avg_loss close p).map replZeroNaN)

/-- `rsi = 100 - (100 / (1 + rs))`, before the fill and rounding. -/
def rsiPre (close : List ℚ) (p : ℕ) : List F :=
  (rsL close p).map fun r => osub (some 100) (odiv (some 100) (oadd (some 1) r))

/-- `Series.fillna(d)`. -/
def fillna (d : ℚ) (xs : List F) : List F :=
  xs.map fun x => match x with | none => some d | some v => some v

/-- The full RSI kernel: Wilder-smoothed gains/losses, the RS ratio with the
zero-loss denominator replaced by NaN, `fillna(100)`, rounding to 2 decimals. -/
def calculate_rsi_series (close : List ℚ) (p : ℕ) : List F :=
  (fillna 100 (rsiPre close p)).map (Option.map (roundTo 2))

theorem diffL_length (xs : List ℚ) : (diffL xs).length = xs.length := by
  cases xs with
  | nil => rfl
  | cons x rest =>
      simp only [diffL, List.length_cons, List.length_map, List.length_zip]
      simp

theorem gains_length (close : List ℚ) : (gains close).length = close.length := by
  simp [gains, diffL_length]

theorem losses_length (close : List ℚ) : (losses close).length = close.length := by
  simp [losses, diffL_length]

theorem avg_gain_length (close : List ℚ) (p : ℕ) :
    (avg_gain close p).length = close.length := by
  simp [avg_gain, ewmMean_length, gains_length]

theorem avg_loss_length (close : List ℚ) (p : ℕ) :
    (avg_loss close p).length = close.length := by
  simp [avg_loss, ewmMean_length, losses_length]

theorem rsL_length (close : List ℚ) (p : ℕ) :
    (rsL close p).length = close.length := by
  simp [rsL, avg_gain_length, avg_loss_length]

theorem rsiPre_length (close : List ℚ) (p : ℕ) :
    (rsiPre close p).length = close.length := by
  simp [rsiPre, rsL_length]

theorem calculate_rsi_series_length (close : List ℚ) (p : ℕ) :
    (calculate_rsi_series close p).length = close.length := by
  simp [calculate_rsi_series, fillna, rsiPre_length]

/-! ### ATR — `calculate_atr` from `src/archive/indicators_helper.py` -/

/-- True range rows after the first: the row-wise max of `high-low`,
`|high-prevClose|`, `|low-prevClose|`. -/
def trAux : ℚ → List ℚ → List ℚ → List ℚ → List ℚ
  | _, [], _, _ => []
  | _, _ :: _, [], _ => []
  | _, _ :: _, _ :: _, [] => []
  | pc, h :: hs, l :: ls, c :: cs =>
      max (h - l) (max |h - pc| |l - pc|) :: trAux c hs ls cs

/-- The true-range series; at the first row the shifted-close terms are NaN and
the pandas row-max skips them, leaving `high - low`. -/
def trList : List ℚ → List ℚ → List ℚ → List ℚ
  | h0 :: hs, l0 :: ls, c0 :: cs => (h0 - l0) :: trAux c0 hs ls cs
  | _, _, _ => []

/-- ATR: Wilder smoothing of the true range with `min_periods = p`, rounded
to 2 decimals. -/
def calculate_atr (high low close : List ℚ) (p : ℕ) : List F :=
  (ewmMean (1 / (p : ℚ)) p ((trList high low close).map some)).map
    (Option.map (roundTo 2))

theorem trAux_length (pc : ℚ) (hs ls cs : List ℚ) :
    (trAux pc hs ls cs).length = min hs.length (min ls.length cs.length) := by
  induction hs generalizing pc ls cs with
  | nil => simp [trAux]
  | cons h hs ih =>
      cases ls with
      | nil => simp [trAux]
      | cons l ls =>
          cases cs with
          | nil => simp [trAux]
          | cons c cs => simp [trAux, ih]; omega

theorem trList_length (h l c : List ℚ) (hh : h.length = c.length)
    (hl : l.length = c.length) : (trList h l c).length = c.length := by
  cases h with
  | nil => cases c with
    | nil => rfl
    | cons c0 cs => simp at hh
  | cons h0 hs =>
      cases l with
      | nil => cases c with
        | nil => rfl
        | cons c0 cs => simp at hl
      | cons l0 ls =>
          cases c with
          | nil => simp at hh
          | cons c0 cs =>
              simp only [trList, List.length_cons, trAux_length]
              simp at hh hl
              omega

theorem calculate_atr_length (high low close : List ℚ) (p : ℕ)
    (hh : high.length = close.length) (hl : low.length = close.length) :
    (calculate_atr high low close p).length = close.length := by
  simp [calculate_atr, ewmMean_length, trList_length high low close hh hl]

/-! ### Supertrend — `calculate_supertrend` from `src/archive/indicators_helper.py`

The band-adjustment and trend loops translate the Python `for i in range(1, n)`
loops; float comparisons involving NaN are false, which the `Option` matches
reproduce branch by branch. -/

def hl2 (high low : List ℚ) : List ℚ :=
  List.zipWith (fun a b => (a + b) / 2) high low

/-- `basic_ub = hl2 + multiplier * atr`. -/
def basic_ub (high low close : List ℚ) (p : ℕ) (m : ℚ) : List F :=
  List.zipWith (fun x a => oadd (some x) (omul (some m) a))
    (hl2 high low) (calculate_atr high low close p)

/-- `basic_lb = hl2 - multiplier * atr`. -/
def basic_lb (high low close : List ℚ) (p : ℕ) (m : ℚ) : List F :=
  List.zipWith (fun x a => osub (some x) (omul (some m) a))
    (hl2 high low) (calculate_atr high low close p)

/-- One step of the upper-band ratchet:
`basic_ub[i]` if `basic_ub[i] < final_ub[i-1]` or `close[i-1] > final_ub[i-1]`,
else `final_ub[i-1]`; comparisons with NaN are false. -/
def ubStep (prev b : F) (pc : ℚ) : F :=
  match prev, b with
  | some pq, some bq => if bq < pq ∨ pq < pc then some bq else some pq
  | some pq, none => if pq < pc then none else some pq
  | none, _ => none

/-- One step of the lower-band ratchet:
`basic_lb[i]` if `basic_lb[i] > final_lb[i-1]` or `close[i-1] < final_lb[i-1]`,
else `final_lb[i-1]`. -/
def lbStep (prev b : F) (pc : ℚ) : F :=
  match prev, b with
  | some pq, some bq => if pq < bq ∨ pc < pq then some bq else some pq
  | some pq, none => if pc < pq then none else some pq
  | none, _ => none

/-- The in-place band loop: each position applies `step` to the previous final
value, the current basic value and the previous close. -/
def adjustGo (step : F → F → ℚ → F) : F → List (F × ℚ) → List F
  | _, [] => []
  | prev, bp :: rest =>
      step prev bp.1 bp.2 :: adjustGo step (step prev bp.1 bp.2) rest

def final_ub (high low close : List ℚ) (p : ℕ) (m : ℚ) : List F :=
  match basic_ub high low close p m with
  | [] => []
  | b0 :: bs => b0 :: adjustGo ubStep b0 (bs.zip close)

def final_lb (high low close : List ℚ) (p : ℕ) (m : ℚ) : List F :=
  match basic_lb high low close p m with
  | [] => []
  | b0 :: bs => b0 :: adjustGo lbStep b0 (bs.zip close)

/-- One step of the trend selection: `close[i] > prev_supertrend` picks the
lower band and direction `+1`, otherwise the upper band and `-1`; comparison
with a NaN previous value is false. -/
def stepST (prevSt : F) (ci : ℚ) (fu fl : F) : F × ℤ :=
  match prevSt with
  | some s => if s < ci then (fl, 1) else (fu, -1)
  | none => (fu, -1)

def stGo : F → List (ℚ × F × F) → List (F × ℤ)
  | _, [] => []
  | prev, t :: rest =>
      stepST prev t.1 t.2.1 t.2.2 :: stGo (stepST prev t.1 t.2.1 t.2.2).1 rest

/-- The (supertrend, direction) pairs before output rounding: the first bar is
seeded with `(final_ub[0], -1)`, later bars walk `stGo`. -/
def stPairs (high low close : List ℚ) (p : ℕ) (m : ℚ) : List (F × ℤ) :=
  match final_ub high low close p m, final_lb high low close p m, close with
  | fu0 :: fus, _ :: fls, _ :: cs => (fu0, -1) :: stGo fu0 (cs.zip (fus.zip fls))
  | _, _, _ => []

/-- The archive Supertrend kernel; an empty input returns empty series (in the
source the seeding of row 0 raises and the handler returns empty series). -/
def calculate_supertrend (high low close : List ℚ) (p : ℕ) (m : ℚ) :
    List F × List ℤ :=
  ((stPairs high low close p m).map fun r => Option.map (roundTo 2) r.1,
   (stPairs high low close p m).map Prod.snd)

/-! ### Supertrend — `supertrend` from `src/services/indicators/trend.py`

Same raw bands but: the ATR has no `min_periods`, the band ratchet is written
with `min`/`max` against the previous final value, the flip rule compares the
close to the previous *final bands*, the state is seeded as an uptrend on the
lower band, and no rounding is applied. -/

/-- Python builtin `min` on two floats: returns the second iff it compares
strictly below the first, so a NaN second argument keeps the first and a NaN
first argument is kept. -/
def pymin : F → F → F
  | some a, some b => if b < a then some b else some a
  | some a, none => some a
  | none, _ => none

/-- Python builtin `max`, same NaN convention as `pymin`. -/
def pymax : F → F → F
  | some a, some b => if a < b then some b else some a
  | some a, none => some a
  | none, _ => none

def st_atr (high low close : List ℚ) (p : ℕ) : List F :=
  ewmMean (1 / (p : ℚ)) 0 ((trList high low close).map some)

def upperband (high low close : List ℚ) (p : ℕ) (m : ℚ) : List F :=
  List.zipWith (fun x a => oadd (some x) (omul (some m) a))
    (hl2 high low) (st_atr high low close p)

def lowerband (high low close : List ℚ) (p : ℕ) (m : ℚ) : List F :=
  List.zipWith (fun x a => osub (some x) (omul (some m) a))
    (hl2 high low) (st_atr high low close p)

/-- `upperband[i]` if `close[i-1] <= final_upper[i-1]`, else
`min(upperband[i], final_upper[i-1])`. -/
def fuStepT (prev ub : F) (pc : ℚ) : F :=
  match prev with
  | some pq => if pc ≤ pq then ub else pymin ub (some pq)
  | none => pymin ub none

/-- `lowerband[i]` if `close[i-1] >= final_lower[i-1]`, else
`max(lowerband[i], final_lower[i-1])`. -/
def flStepT (prev lb : F) (pc : ℚ) : F :=
  match prev with
  | some pq => if pq ≤ pc then lb else pymax lb (some pq)
  | none => pymax lb none

def final_upper (high low close : List ℚ) (p : ℕ) (m : ℚ) : List F :=
  match upperband high low close p m with
  | [] => []
  | u0 :: us => u0 :: adjustGo fuStepT u0 (us.zip close)

def final_lower (high low close : List ℚ) (p : ℕ) (m : ℚ) : List F :=
  match lowerband high low close p m with
  | [] => []
  | l0 :: ls => l0 :: adjustGo flStepT l0 (ls.zip close)

/-- The trend.py flip rule: above the previous final upper band means up, below
the previous final lower band means down, else the previous trend persists. -/
def cmpTrend (prevT : ℤ) (ci : ℚ) (fup flp : F) : ℤ :=
  match fup, flp with
  | some u, some l => if u < ci then 1 else if ci < l then -1 else prevT
  | some u, none => if u < ci then 1 else prevT
  | none, some l => if ci < l then -1 else prevT
  | none, none => prevT

/-- One step: the new trend via `cmpTrend`, the supertrend value is the
current final lower band in an uptrend, the final upper band otherwise. -/
def stepT (prevT : ℤ) (ci : ℚ) (fup flp fui fli : F) : F × ℤ :=
  ((if cmpTrend prevT ci fup flp = 1 then fli else fui), cmpTrend prevT ci fup flp)

def stGoT : ℤ → List (ℚ × F × F × F × F) → List (F × ℤ)
  | _, [] => []
  | prevT, t :: rest =>
      stepT prevT t.1 t.2.1 t.2.2.1 t.2.2.2.1 t.2.2.2.2 ::
        stGoT (cmpTrend prevT t.1 t.2.1 t.2.2.1) rest

/-- The trend.py Supertrend: seeded with `trend[0] = 1`,
`st[0] = final_lower[0]`, unrounded output.  (On an empty input the source
raises; modelled as empty output, never used at empty input here.) -/
def supertrend (high low close : List ℚ) (p : ℕ) (m : ℚ) : List F × List ℤ :=
  match final_upper high low close p m, final_lower high low close p m, close with
  | fu0 :: fus, fl0 :: fls, _ :: cs =>
      (fl0 :: (stGoT 1 (cs.zip ((fu0 :: fus).zip ((fl0 :: fls).zip (fus.zip fls))))).map Prod.fst,
       1 :: (stGoT 1 (cs.zip ((fu0 :: fus).zip ((fl0 :: fls).zip (fus.zip fls))))).map Prod.snd)
  | _, _, _ => ([], [])

/-! ### MACD — `calculate_macd` from `src/archive/indicators_helper.py` -/

/-- `macd = ema(close, span 12) - ema(close, span 26)`, unrounded. -/
def macdLine (close : List ℚ) : List F :=
  List.zipWith osub (ewmMean (2 / 13) 0 (close.map some))
    (ewmMean (2 / 27) 0 (close.map some))

/-- `signal = ema(macd, span 9)` of the unrounded macd line. -/
def signalLine (close : List ℚ) : List F :=
  ewmMean (2 / 10) 0 (macdLine close)

/-- The MACD kernel: both outputs rounded to 2 decimals in the source. -/
def calculate_macd (close : List ℚ) : List F × List F :=
  ((macdLine close).map (Option.map (roundTo 2)),
   (signalLine close).map (Option.map (roundTo 2)))

/-! ### Bollinger — `calculate_bollinger` from `src/archive/indicators_helper.py` -/

def bollMid (close : List ℚ) (p : ℕ) : List F :=
  rollingApply p windowMean (close.map some)

def bollVar (close : List ℚ) (p : ℕ) : List F :=
  rollingApply p sampleVar (close.map some)

/-- `rolling(p).std()`: the square root of the sample variance. -/
noncomputable def bollStd (close : List ℚ) (p : ℕ) : List (Option ℝ) :=
  (bollVar close p).map (Option.map fun v => Real.sqrt ((v : ℚ) : ℝ))

noncomputable def bollUpper (close : List ℚ) (p : ℕ) (m : ℚ) : List (Option ℝ) :=
  List.zipWith
    (fun mid s => match mid, s with
      | some mq, some sv => some (roundTo 2 ((mq : ℝ) + (m : ℝ) * sv))
      | _, _ => none)
    (bollMid close p) (bollStd close p)

noncomputable def bollLower (close : List ℚ) (p : ℕ) (m : ℚ) : List (Option ℝ) :=
  List.zipWith
    (fun mid s => match mid, s with
      | some mq, some sv => some (roundTo 2 ((mq : ℝ) - (m : ℝ) * sv))
      | _, _ => none)
    (bollMid close p) (bollStd close p)

noncomputable def bollMidR (close : List ℚ) (p : ℕ) : List (Option ℝ) :=
  (bollMid close p).map (Option.map fun q => roundTo 2 ((q : ℚ) : ℝ))

/-- The Bollinger kernel (`period=20`, `std_mult=2` at the call sites):
`(upper, middle, lower)`, each rounded to 2 decimals. -/
noncomputable def calculate_bollinger (close : List ℚ) (p : ℕ) (m : ℚ) :
    List (Option ℝ) × List (Option ℝ) × List (Option ℝ) :=
  (bollUpper close p m, bollMidR close p, bollLower close p m)

/-! ### EMA / WMA / SMA / pct-change helpers used by `calculate_indicators` -/

/-- `calculate_ema(series, period)`: span-EMA, no `min_periods`, rounded 2dp. -/
def calculate_ema (series : List F) (p : ℕ) : List F :=
  (ewmMean (2 / ((p : ℚ) + 1)) 0 series).map (Option.map (roundTo 2))

def wmaWeights (p : ℕ) : List ℚ := (List.range p).map fun k => (k : ℚ) + 1

/-- `calculate_wma(series, period)`: linear-weight rolling dot product over
`weights 1..p`, normalized by their sum, rounded 2dp. -/
def calculate_wma (series : List F) (p : ℕ) : List F :=
  (rollingApply p
    (fun w => (List.zipWith (fun a b => a * b) w (wmaWeights p)).sum / (wmaWeights p).sum)
    series).map (Option.map (roundTo 2))

/-- `adj_close.rolling(p).mean().round(2)` as used for sma_20/50/200. -/
def smaRound (adj : List ℚ) (p : ℕ) : List F :=
  (rollingApply p windowMean (adj.map some)).map (Option.map (roundTo 2))

/-- `(adj_close.pct_change() * 100).round(2)`; a zero previous value is
modelled as NaN (the source produces a float infinity there). -/
def pct_price_change (adj : List ℚ) : List F :=
  match adj with
  | [] => []
  | _ :: _ =>
      none :: (adj.zip adj.tail).map fun pr =>
        if pr.1 = 0 then none else some (roundTo 2 ((pr.2 - pr.1) / pr.1 * 100))

/-! ### The equity indicator upsert — `src/db/sql.py` with `refresh_indicators`

`SQL_INSERT["equity"]`, formatted for `equity_indicators`/`symbol_id` as in
`refresh_indicators`, lists 20 columns and 20 placeholders, with
`ON CONFLICT(symbol_id, timeframe, date) DO UPDATE SET` over every non-key
column.  `refresh_indicators` binds each per-row tuple (which also carries
`is_final`) against those placeholders via `executemany`; sqlite3 raises when
the supplied parameter count differs from the placeholder count. -/

inductive Val where
  | int (z : ℤ)
  | str (s : String)
  | boolean (b : Bool)
  | num (x : F)
  deriving DecidableEq

def insertSqlEquityValues : String :=
  "VALUES (?, ?, ?, ?, ?, ?, ?, ?, ?, ?, ?, ?, ?, ?, ?, ?, ?, ?, ?, ?)"

def placeholderCount (s : String) : ℕ :=
  s.toList.countP fun ch => ch = '?'

def equityInsertColumns : List String :=
  ["symbol_id", "timeframe", "date",
   "sma_20", "sma_50", "sma_200",
   "rsi_3", "rsi_9", "rsi_14",
   "bb_upper", "bb_middle", "bb_lower",
   "atr_14", "supertrend", "supertrend_dir",
   "ema_rsi_9_3", "wma_rsi_9_21", "pct_price_change",
   "macd", "macd_signal"]

def equityConflictKey : List String := ["symbol_id", "timeframe", "date"]

/-- The `DO UPDATE SET c = excluded.c` columns: every inserted column except
the conflict key. -/
def equityUpdateColumns : List String := equityInsertColumns.drop 3

/-- One computed indicator row as read back from the per-symbol DataFrame when
the equity records are assembled (`refresh_indicators`, equities part). -/
structure EqRowSrc where
  date : ℤ
  is_final : Bool
  sma_20 : F
  sma_50 : F
  sma_200 : F
  rsi_3 : F
  rsi_9 : F
  rsi_14 : F
  bb_upper : F
  bb_middle : F
  bb_lower : F
  atr_14 : F
  supertrend : F
  supertrend_dir : ℤ
  ema_rsi_9_3 : F
  wma_rsi_9_21 : F
  pct_price_change : F
  macd : F
  macd_signal : F

/-- The parameter tuple built for one equity row, in source order — note the
`is_final` entry between the key and the indicator columns. -/
def equityRecord (symbol_id : ℤ) (timeframe : String) (r : EqRowSrc) : List Val :=
  [.int symbol_id, .str timeframe, .int r.date, .boolean r.is_final,
   .num r.sma_20, .num r.sma_50, .num r.sma_200,
   .num r.rsi_3, .num r.rsi_9, .num r.rsi_14,
   .num r.bb_upper, .num r.bb_middle, .num r.bb_lower,
   .num r.atr_14, .num r.supertrend, .int r.supertrend_dir,
   .num r.ema_rsi_9_3, .num r.wma_rsi_9_21, .num r.pct_price_change,
   .num r.macd, .num r.macd_signal]

inductive SqlError where
  | bindingCountMismatch (supplied expected : ℕ)
  deriving DecidableEq

/-- Insert-or-replace keyed by the first three values (the conflict key
columns lead the column list): on a key match the stored row is replaced
wholesale, otherwise the record is appended. -/
def sqliteUpsertRow (store : List (List Val)) (rec : List Val) : List (List Val) :=
  if (store.filter fun row => row.take 3 = rec.take 3).isEmpty
  then store ++ [rec]
  else store.map fun row => if row.take 3 = rec.take 3 then rec else row

/-- Executing one parameterized statement: sqlite3 first checks that the
number of supplied parameters equals the number of placeholders and raises
otherwise; only then does the upsert run. -/
def sqliteExecute (valuesClause : String) (store : List (List Val))
    (rec : List Val) : Except SqlError (List (List Val)) :=
  if rec.length = placeholderCount valuesClause
  then .ok (sqliteUpsertRow store rec)
  else .error (.bindingCountMismatch rec.length (placeholderCount valuesClause))

/-! ### The index refresh loop — `refresh_indicators`, indices part

Per (index, timeframe): the full price history is loaded (there is no cursor
anywhere in the function), `calculate_indicators` recomputes every indicator
column, one record per bar is built and upserted, and the run's write counter
advances by the record count.  The store is a map keyed by
(index_id, timeframe, date). -/

structure IxBar where
  date : ℤ
  op : ℚ
  hi : ℚ
  lo : ℚ
  cl : ℚ
  adj : ℚ
  deriving DecidableEq

def oR : F → Option ℝ := Option.map fun q => (q : ℝ)

/-- The 17 indicator values of one row, in the order of the index insert
tuple; SMAs and pct-change are computed on `adj_close`, the rest on
`close`/`high`/`low`, exactly as in `calculate_indicators`. -/
noncomputable def indexRowVals (bars : List IxBar) (i : ℕ) : List (Option ℝ) :=
  [oR ((smaRound (bars.map IxBar.adj) 20).getD i none),
   oR ((smaRound (bars.map IxBar.adj) 50).getD i none),
   oR ((smaRound (bars.map IxBar.adj) 200).getD i none),
   oR ((calculate_rsi_series (bars.map IxBar.cl) 3).getD i none),
   oR ((calculate_rsi_series (bars.map IxBar.cl) 9).getD i none),
   oR ((calculate_rsi_series (bars.map IxBar.cl) 14).getD i none),
   (bollUpper (bars.map IxBar.cl) 20 2).getD i none,
   (bollMidR (bars.map IxBar.cl) 20).getD i none,
   (bollLower (bars.map IxBar.cl) 20 2).getD i none,
   oR ((calculate_atr (bars.map IxBar.hi) (bars.map IxBar.lo) (bars.map IxBar.cl) 14).getD i none),
   oR ((calculate_supertrend (bars.map IxBar.hi) (bars.map IxBar.lo) (bars.map IxBar.cl) 10 3).1.getD i none),
   some (((calculate_supertrend (bars.map IxBar.hi) (bars.map IxBar.lo) (bars.map IxBar.cl) 10 3).2.getD i 0 : ℤ) : ℝ),
   oR ((calculate_ema (calculate_rsi_series (bars.map IxBar.cl) 9) 3).getD i none),
   oR ((calculate_wma (calculate_rsi_series (bars.map IxBar.cl) 9) 21).getD i none),
   oR ((pct_price_change (bars.map IxBar.adj)).getD i none),
   oR ((calculate_macd (bars.map IxBar.cl)).1.getD i none),
   oR ((calculate_macd (bars.map IxBar.cl)).2.getD i none)]

abbrev IxKey := ℤ × String × ℤ

abbrev IxStore := IxKey → Option (List (Option ℝ))

/-- One record per DataFrame row, keyed (index_id, timeframe, date). -/
noncomputable def indexRecords (index_id : ℤ) (tf : String) (bars : List IxBar) :
    List (IxKey × List (Option ℝ)) :=
  (List.range bars.length).map fun i =>
    ((index_id, tf, (bars.getD i ⟨0, 0, 0, 0, 0, 0⟩).date), indexRowVals bars i)

def upsertOp (st : IxStore) (op : IxKey × List (Option ℝ)) : IxStore :=
  fun k => if k = op.1 then some op.2 else st k

def applyOps (st : IxStore) (ops : List (IxKey × List (Option ℝ))) : IxStore :=
  ops.foldl upsertOp st

/-- All upserts of one refresh run over the index tables: timeframe loop
outside, symbol loop inside, empty histories skipped. -/
noncomputable def refreshOps (ps : List (ℤ × List IxBar)) (tfs : List String) :
    List (IxKey × List (Option ℝ)) :=
  tfs.flatMap fun tf => ps.flatMap fun sb =>
    if sb.2.isEmpty then [] else indexRecords sb.1 tf sb.2

/-- One refresh run: the store after applying every upsert, and the number of
write statements executed (the `inserted_rows` counter). -/
noncomputable def refresh_index_indicators (ps : List (ℤ × List IxBar))
    (tfs : List String) (st : IxStore) : IxStore × ℕ :=
  (applyOps st (refreshOps ps tfs), (refreshOps ps tfs).length)

def lastWrite (k : IxKey) (ops : List (IxKey × List (Option ℝ))) :
    Option (List (Option ℝ)) :=
  (ops.reverse.find? fun op => op.1 = k).map Prod.snd

theorem applyOps_eval (st : IxStore) (ops : List (IxKey × List (Option ℝ)))
    (k : IxKey) : applyOps st ops k = (lastWrite k ops).elim (st k) some := by
  induction ops generalizing st with
  | nil => simp [applyOps, lastWrite]
  | cons op rest ih =>
      rw [show applyOps st (op :: rest) = applyOps (upsertOp st op) rest from rfl, ih]
      have hlast : lastWrite k (op :: rest) =
          (lastWrite k rest).or (if op.1 = k then some op.2 else none) := by
        unfold lastWrite
        rw [List.reverse_cons, List.find?_append]
        cases hfo : List.find? (fun o => decide (o.1 = k)) rest.reverse with
        | some o => simp
        | none =>
            by_cases hk : op.1 = k
            · simp [List.find?_cons_of_pos, hk]
            · simp [List.find?_cons_of_neg, hk]
      rw [hlast]
      cases hfr : lastWrite k rest with
      | some v => simp
      | none =>
          simp only [Option.none_or, Option.elim]
          by_cases hk : op.1 = k
          · subst hk
            simp [upsertOp]
          · rw [if_neg hk]
            have hne : k ≠ op.1 := fun hc => hk hc.symm
            simp [upsertOp, hne]

theorem applyOps_idem (st : IxStore) (ops : List (IxKey × List (Option ℝ))) :
    applyOps (applyOps st ops) ops = applyOps st ops := by
  funext k
  rw [applyOps_eval, applyOps_eval]
  cases h : lastWrite k ops with
  | some v => simp
  | none => simp [applyOps_eval, h]

/-! ### Name resolution in `calculate_indicators` — `src/services/indicator_service.py`

The module imports (lines 1–12) bind exactly these names; `sys` is not among
them, while the except handler's first statement evaluates
`sys._getframe().f_code.co_name`.  Evaluating that handler therefore raises
`NameError` instead of reaching the `return df` fallback, and the new
exception escapes `calculate_indicators` into the per-symbol handler of
`refresh_indicators`, which logs and continues. -/

def indicator_service_bound_names : List String :=
  ["get_db_connection", "close_db_connection", "log", "FREQUENCIES",
   "calculate_rsi_series", "calculate_bollinger", "calculate_atr",
   "calculate_macd", "calculate_supertrend", "calculate_ema", "calculate_wma",
   "SQL_INSERT", "pd", "traceback", "time"]

inductive PyOutcome (α : Type) where
  | ok (value : α)
  | raisedNameError (missing : String)
  deriving DecidableEq

/-- The except-handler body of `calculate_indicators`: it can only return the
original frame if the name `sys` resolves in the module namespace. -/
def exceptHandlerOutcome {α : Type} (df : α) : PyOutcome α :=
  if "sys" ∈ indicator_service_bound_names then .ok df else .raisedNameError "sys"

/-- `calculate_indicators` as seen by its caller: the normal path applies the
column transformations; if any kernel raises, control reaches the handler. -/
def calculate_indicators_outcome {α : Type} (kernelRaises : Bool)
    (transform : α → α) (df : α) : PyOutcome α :=
  if kernelRaises then exceptHandlerOutcome df else .ok (transform df)

/-- The per-symbol try/except in `refresh_indicators`: a raise from
`calculate_indicators` is caught there, the symbol is skipped (no write). -/
def per_symbol_step {α σ : Type} (kernelRaises : Bool) (transform : α → α)
    (df : α) (write : α → σ → σ) (st : σ) : σ :=
  match calculate_indicators_outcome kernelRaises transform df with
  | .ok d => write d st
  | .raisedNameError _ => st

/-! ### Indexing lemmas for the band and trend loops -/

theorem adjustGo_length (step : F → F → ℚ → F) (prev : F) (l : List (F × ℚ)) :
    (adjustGo step prev l).length = l.length := by
  induction l generalizing prev with
  | nil => rfl
  | cons bp rest ih => simp [adjustGo, ih]

theorem adjustGo_getD_zero (step : F → F → ℚ → F) (prev : F) (l : List (F × ℚ))
    (h : 0 < l.length) :
    (adjustGo step prev l).getD 0 none =
      step prev (l.getD 0 (none, 0)).1 (l.getD 0 (none, 0)).2 := by
  cases l with
  | nil => simp at h
  | cons bp rest => rfl

theorem adjustGo_getD_succ (step : F → F → ℚ → F) (prev : F) (l : List (F × ℚ))
    (i : ℕ) (hi : i + 1 < l.length) :
    (adjustGo step prev l).getD (i + 1) none =
      step ((adjustGo step prev l).getD i none)
        (l.getD (i + 1) (none, 0)).1 (l.getD (i + 1) (none, 0)).2 := by
  induction l generalizing prev i with
  | nil => simp at hi
  | cons bp rest ih =>
      cases i with
      | zero =>
          cases rest with
          | nil => simp at hi
          | cons bq rest' => rfl
      | succ i' =>
          have h' := ih (step prev bp.1 bp.2) i' (by simpa using hi)
          simpa [adjustGo, List.getD_cons_succ] using h'

theorem stGo_length (prev : F) (l : List (ℚ × F × F)) :
    (stGo prev l).length = l.length := by
  induction l generalizing prev with
  | nil => rfl
  | cons t rest ih => simp [stGo, ih]

theorem stGo_getD_zero (prev : F) (l : List (ℚ × F × F)) (h : 0 < l.length) :
    (stGo prev l).getD 0 (none, 0) =
      stepST prev (l.getD 0 (0, none, none)).1 (l.getD 0 (0, none, none)).2.1
        (l.getD 0 (0, none, none)).2.2 := by
  cases l with
  | nil => simp at h
  | cons t rest => rfl

theorem stGo_getD_succ (prev : F) (l : List (ℚ × F × F)) (i : ℕ)
    (hi : i + 1 < l.length) :
    (stGo prev l).getD (i + 1) (none, 0) =
      stepST ((stGo prev l).getD i (none, 0)).1 (l.getD (i + 1) (0, none, none)).1
        (l.getD (i + 1) (0, none, none)).2.1 (l.getD (i + 1) (0, none, none)).2.2 := by
  induction l generalizing prev i with
  | nil => simp at hi
  | cons t rest ih =>
      cases i with
      | zero =>
          cases rest with
          | nil => simp at hi
          | cons t' rest' => rfl
      | succ i' =>
          have h' := ih (stepST prev t.1 t.2.1 t.2.2).1 i' (by simpa using hi)
          simpa [stGo, List.getD_cons_succ] using h'

/-! ### Length lemmas for the Supertrend pipeline -/

theorem hl2_length (high low : List ℚ) :
    (hl2 high low).length = min high.length low.length := by
  simp [hl2]

theorem basic_ub_length (high low close : List ℚ) (p : ℕ) (m : ℚ)
    (hh : high.length = close.length) (hl : low.length = close.length) :
    (basic_ub high low close p m).length = close.length := by
  simp [basic_ub, hl2_length, calculate_atr_length high low close p hh hl, hh, hl]

theorem basic_lb_length (high low close : List ℚ) (p : ℕ) (m : ℚ)
    (hh : high.length = close.length) (hl : low.length = close.length) :
    (basic_lb high low close p m).length = close.length := by
  simp [basic_lb, hl2_length, calculate_atr_length high low close p hh hl, hh, hl]

theorem final_ub_length (high low close : List ℚ) (p : ℕ) (m : ℚ)
    (hh : high.length = close.length) (hl : low.length = close.length) :
    (final_ub high low close p m).length = close.length := by
  have hb := basic_ub_length high low close p m hh hl
  cases hbu : basic_ub high low close p m with
  | nil => rw [hbu] at hb; simp only [final_ub, hbu]; exact hb
  | cons b0 bs =>
      rw [hbu] at hb
      simp only [final_ub, hbu, List.length_cons, adjustGo_length, List.length_zip]
      simp at hb
      omega

theorem final_lb_length (high low close : List ℚ) (p : ℕ) (m : ℚ)
    (hh : high.length = close.length) (hl : low.length = close.length) :
    (final_lb high low close p m).length = close.length := by
  have hb := basic_lb_length high low close p m hh hl
  cases hbl : basic_lb high low close p m with
  | nil => rw [hbl] at hb; simp only [final_lb, hbl]; exact hb
  | cons b0 bs =>
      rw [hbl] at hb
      simp only [final_lb, hbl, List.length_cons, adjustGo_length, List.length_zip]
      simp at hb
      omega

theorem getD_zip {α β : Type} (l₁ : List α) (l₂ : List β) (i : ℕ) (d₁ : α)
    (d₂ : β) (h₁ : i < l₁.length) (h₂ : i < l₂.length) :
    (l₁.zip l₂).getD i (d₁, d₂) = (l₁.getD i d₁, l₂.getD i d₂) := by
  induction l₁ generalizing l₂ i with
  | nil => simp at h₁
  | cons a l ih =>
      cases l₂ with
      | nil => simp at h₂
      | cons b l' =>
          cases i with
          | zero => rfl
          | succ i' =>
              simp only [List.zip_cons_cons, List.getD_cons_succ]
              exact ih l' i' (by simpa using h₁) (by simpa using h₂)

/-! ### The band and state recurrences of `calculate_supertrend` -/

theorem final_ub_getD_zero (high low close : List ℚ) (p : ℕ) (m : ℚ)
    (hh : high.length = close.length) (hl : low.length = close.length)
    (h0 : 0 < close.length) :
    (final_ub high low close p m).getD 0 none =
      (basic_ub high low close p m).getD 0 none := by
  have hb := basic_ub_length high low close p m hh hl
  cases hbu : basic_ub high low close p m with
  | nil => rw [hbu] at hb; simp at hb; omega
  | cons b0 bs => simp only [final_ub, hbu, List.getD_cons_zero]

theorem final_ub_getD_succ (high low close : List ℚ) (p : ℕ) (m : ℚ)
    (hh : high.length = close.length) (hl : low.length = close.length)
    (t : ℕ) (ht : t + 1 < close.length) :
    (final_ub high low close p m).getD (t + 1) none =
      ubStep ((final_ub high low close p m).getD t none)
        ((basic_ub high low close p m).getD (t + 1) none) (close.getD t 0) := by
  have hb := basic_ub_length high low close p m hh hl
  cases hbu : basic_ub high low close p m with
  | nil => rw [hbu] at hb; simp at hb; omega
  | cons b0 bs =>
      rw [hbu] at hb
      simp only [List.length_cons] at hb
      have hbs : bs.length = close.length - 1 := by omega
      have hpl : (bs.zip close).length = close.length - 1 := by
        simp [List.length_zip]; omega
      simp only [final_ub, hbu, List.getD_cons_succ]
      cases t with
      | zero =>
          rw [adjustGo_getD_zero ubStep b0 (bs.zip close) (by omega)]
          rw [getD_zip bs close 0 none 0 (by omega) (by omega)]
          rfl
      | succ s =>
          rw [adjustGo_getD_succ ubStep b0 (bs.zip close) s (by omega)]
          rw [getD_zip bs close (s + 1) none 0 (by omega) (by omega)]
          rfl

theorem final_lb_getD_zero (high low close : List ℚ) (p : ℕ) (m : ℚ)
    (hh : high.length = close.length) (hl : low.length = close.length)
    (h0 : 0 < close.length) :
    (final_lb high low close p m).getD 0 none =
      (basic_lb high low close p m).getD 0 none := by
  have hb := basic_lb_length high low close p m hh hl
  cases hbl : basic_lb high low close p m with
  | nil => rw [hbl] at hb; simp at hb; omega
  | cons b0 bs => simp only [final_lb, hbl, List.getD_cons_zero]

theorem final_lb_getD_succ (high low close : List ℚ) (p : ℕ) (m : ℚ)
    (hh : high.length = close.length) (hl : low.length = close.length)
    (t : ℕ) (ht : t + 1 < close.length) :
    (final_lb high low close p m).getD (t + 1) none =
      lbStep ((final_lb high low close p m).getD t none)
        ((basic_lb high low close p m).getD (t + 1) none) (close.getD t 0) := by
  have hb := basic_lb_length high low close p m hh hl
  cases hbl : basic_lb high low close p m with
  | nil => rw [hbl] at hb; simp at hb; omega
  | cons b0 bs =>
      rw [hbl] at hb
      simp only [List.length_cons] at hb
      have hbs : bs.length = close.length - 1 := by omega
      have hpl : (bs.zip close).length = close.length - 1 := by
        simp [List.length_zip]; omega
      simp only [final_lb, hbl, List.getD_cons_succ]
      cases t with
      | zero =>
          rw [adjustGo_getD_zero lbStep b0 (bs.zip close) (by omega)]
          rw [getD_zip bs close 0 none 0 (by omega) (by omega)]
          rfl
      | succ s =>
          rw [adjustGo_getD_succ lbStep b0 (bs.zip close) s (by omega)]
          rw [getD_zip bs close (s + 1) none 0 (by omega) (by omega)]
          rfl

theorem stPairs_getD_zero (high low close : List ℚ) (p : ℕ) (m : ℚ)
    (hh : high.length = close.length) (hl : low.length = close.length)
    (h0 : 0 < close.length) :
    (stPairs high low close p m).getD 0 (none, 0) =
      ((final_ub high low close p m).getD 0 none, -1) := by
  obtain ⟨c0, cs, rfl⟩ : ∃ c0 cs, close = c0 :: cs := by
    cases close with
    | nil => simp at h0
    | cons a b => exact ⟨a, b, rfl⟩
  have hfu := final_ub_length high low (c0 :: cs) p m hh hl
  have hfl := final_lb_length high low (c0 :: cs) p m hh hl
  cases hu : final_ub high low (c0 :: cs) p m with
  | nil => rw [hu] at hfu; simp at hfu
  | cons fu0 fus =>
      cases hlo : final_lb high low (c0 :: cs) p m with
      | nil => rw [hlo] at hfl; simp at hfl
      | cons fl0 fls =>
          simp only [stPairs, hu, hlo, List.getD_cons_zero]

theorem stPairs_getD_succ (high low close : List ℚ) (p : ℕ) (m : ℚ)
    (hh : high.length = close.length) (hl : low.length = close.length)
    (t : ℕ) (ht : t + 1 < close.length) :
    (stPairs high low close p m).getD (t + 1) (none, 0) =
      stepST ((stPairs high low close p m).getD t (none, 0)).1
        (close.getD (t + 1) 0)
        ((final_ub high low close p m).getD (t + 1) none)
        ((final_lb high low close p m).getD (t + 1) none) := by
  obtain ⟨c0, cs, rfl⟩ : ∃ c0 cs, close = c0 :: cs := by
    cases close with
    | nil => simp at ht
    | cons a b => exact ⟨a, b, rfl⟩
  have hful := final_ub_length high low (c0 :: cs) p m hh hl
  have hfll := final_lb_length high low (c0 :: cs) p m hh hl
  cases hu : final_ub high low (c0 :: cs) p m with
  | nil => rw [hu] at hful; simp at hful
  | cons fu0 fus =>
      cases hlo : final_lb high low (c0 :: cs) p m with
      | nil => rw [hlo] at hfll; simp at hfll
      | cons fl0 fls =>
          rw [hu] at hful; rw [hlo] at hfll
          simp only [List.length_cons] at hful hfll ht
          have hzl : (fus.zip fls).length = cs.length := by
            simp [List.length_zip]; omega
          have htl : (cs.zip (fus.zip fls)).length = cs.length := by
            simp [List.length_zip]; omega
          simp only [stPairs, hu, hlo, List.getD_cons_succ]
          cases t with
          | zero =>
              rw [stGo_getD_zero fu0 (cs.zip (fus.zip fls)) (by omega)]
              rw [getD_zip cs (fus.zip fls) 0 0 (none, none) (by omega) (by omega)]
              rw [getD_zip fus fls 0 none none (by omega) (by omega)]
              rfl
          | succ s =>
              rw [stGo_getD_succ fu0 (cs.zip (fus.zip fls)) s (by omega)]
              rw [getD_zip cs (fus.zip fls) (s + 1) 0 (none, none) (by omega) (by omega)]
              rw [getD_zip fus fls (s + 1) none none (by omega) (by omega)]
              rfl

/-- The per-bar behaviour claimed for `calculate_supertrend`: the two band
ratchets (`ubStep`/`lbStep` spell out the claimed conditions, with comparisons
against NaN false), the first-bar seed `(finalUpper[0], direction -1)`, and the
flip rule: direction `+1` with `supertrend = finalLower` exactly when the close
exceeds the previous supertrend value, else `-1` with `finalUpper` (`stepST`). -/
def SupertrendStepSpec (high low close : List ℚ) (p : ℕ) (m : ℚ) (t : ℕ) : Prop :=
  (final_ub high low close p m).getD (t + 1) none =
      ubStep ((final_ub high low close p m).getD t none)
        ((basic_ub high low close p m).getD (t + 1) none) (close.getD t 0) ∧
  (final_lb high low close p m).getD (t + 1) none =
      lbStep ((final_lb high low close p m).getD t none)
        ((basic_lb high low close p m).getD (t + 1) none) (close.getD t 0) ∧
  (stPairs high low close p m).getD 0 (none, 0) =
      ((final_ub high low close p m).getD 0 none, -1) ∧
  (stPairs high low close p m).getD (t + 1) (none, 0) =
      stepST ((stPairs high low close p m).getD t (none, 0)).1
        (close.getD (t + 1) 0)
        ((final_ub high low close p m).getD (t + 1) none)
        ((final_lb high low close p m).getD (t + 1) none)

/-! ### Bollinger ordering -/

theorem getD_range (n i : ℕ) (h : i < n) : (List.range n).getD i 0 = i := by
  rw [List.getD_eq_getElem?_getD, List.getElem?_range h]
  rfl

theorem bollMid_length (close : List ℚ) (p : ℕ) :
    (bollMid close p).length = close.length := by
  simp [bollMid, rollingApply_length]

theorem bollVar_length (close : List ℚ) (p : ℕ) :
    (bollVar close p).length = close.length := by
  simp [bollVar, rollingApply_length]

theorem bollStd_length (close : List ℚ) (p : ℕ) :
    (bollStd close p).length = close.length := by
  simp [bollStd, bollVar_length]

theorem bollStd_getD (close : List ℚ) (p : ℕ) (i : ℕ) (hi : i < close.length) :
    (bollStd close p).getD i none =
      Option.map (fun v : ℚ => Real.sqrt ((v : ℚ) : ℝ)) ((bollVar close p).getD i none) := by
  unfold bollStd
  rw [getD_map _ _ i none none (by rw [bollVar_length]; exact hi)]

/-- C9's property, stated over the Bollinger triple at the source call site
(`period=20`, `std_mult=2`): wherever upper, middle and lower are all defined,
they are ordered `lower ≤ middle ≤ upper`. -/
def bbOrderedAt (close : List ℚ) (i : ℕ) : Prop :=
  match (calculate_bollinger close 20 2).1.getD i none,
      (calculate_bollinger close 20 2).2.1.getD i none,
      (calculate_bollinger close 20 2).2.2.getD i none with
  | some u, some mid, some lo => lo ≤ mid ∧ mid ≤ u
  | _, _, _ => True

/-- Claim C9: for every close series, at every position where `bb_upper`,
`bb_middle` and `bb_lower` are all defined (non-NaN) — every window with at
least 20 valid closes — the Bollinger outputs satisfy
`bb_upper ≥ bb_middle ≥ bb_lower`. -/
theorem c9_bollinger_ordering (close : List ℚ) (i : ℕ) : bbOrderedAt close i := by
  unfold bbOrderedAt calculate_bollinger
  by_cases hi : i < close.length
  · have hmlen : i < (bollMid close 20).length := by rw [bollMid_length]; exact hi
    have hslen : i < (bollStd close 20).length := by rw [bollStd_length]; exact hi
    have hup : (bollUpper close 20 2).getD i none =
        (fun mid s => match mid, s with
          | some mq, some sv => some (roundTo 2 ((mq : ℝ) + ((2 : ℚ) : ℝ) * sv))
          | _, _ => none) ((bollMid close 20).getD i none) ((bollStd close 20).getD i none) := by
      unfold bollUpper
      exact getD_zipWith _ _ _ i none none none hmlen hslen
    have hlo : (bollLower close 20 2).getD i none =
        (fun mid s => match mid, s with
          | some mq, some sv => some (roundTo 2 ((mq : ℝ) - ((2 : ℚ) : ℝ) * sv))
          | _, _ => none) ((bollMid close 20).getD i none) ((bollStd close 20).getD i none) := by
      unfold bollLower
      exact getD_zipWith _ _ _ i none none none hmlen hslen
    have hmr : (bollMidR close 20).getD i none =
        Option.map (fun q : ℚ => roundTo 2 ((q : ℚ) : ℝ)) ((bollMid close 20).getD i none) := by
      unfold bollMidR
      exact getD_map _ _ i none none hmlen
    rw [hup, hlo, hmr, bollStd_getD close 20 i hi]
    cases hm : (bollMid close 20).getD i none with
    | none => simp
    | some mq =>
        cases hv : (bollVar close 20).getD i none with
        | none => simp
        | some vq =>
            simp only [Option.map_some]
            have hs : (0 : ℝ) ≤ ((2 : ℚ) : ℝ) * Real.sqrt ((vq : ℚ) : ℝ) := by
              positivity
            constructor
            · exact roundTo_mono 2 (by linarith)
            · exact roundTo_mono 2 (by linarith)
  · have h1 : (bollUpper close 20 2).getD i none = none := by
      apply getD_of_length_le
      simp only [bollUpper, List.length_zipWith, bollMid_length, bollStd_length]
      omega
    rw [h1]
    simp

/-! ### Claim theorems -/

/-- Claim C3: the Supertrend kernel computes the ratcheted bands by the claimed
recurrences (NaN comparisons false), seeds the state at the first bar with
direction `-1` and `supertrend[0] = finalUpper[0]`, and for `t > 0` picks
`(finalLower[t], +1)` exactly when `close[t]` exceeds the previous supertrend
value, else `(finalUpper[t], -1)` — see `SupertrendStepSpec`. -/
theorem c3_supertrend_recurrence (high low close : List ℚ) (p : ℕ) (m : ℚ)
    (hh : high.length = close.length) (hl : low.length = close.length)
    (t : ℕ) (ht : t + 1 < close.length) :
    SupertrendStepSpec high low close p m t :=
  ⟨final_ub_getD_succ high low close p m hh hl t ht,
   final_lb_getD_succ high low close p m hh hl t ht,
   stPairs_getD_zero high low close p m hh hl (by omega),
   stPairs_getD_succ high low close p m hh hl t ht⟩

/-- Witness for C3 at a concrete two-bar series. -/
theorem c3_supertrend_recurrence_witness :
    ([10, 11] : List ℚ).length = ([9, 10] : List ℚ).length ∧
    (0 : ℕ) + 1 < ([9, 10] : List ℚ).length ∧
    SupertrendStepSpec [10, 11] [8, 9] [9, 10] 10 3 0 :=
  ⟨rfl, by norm_num,
   c3_supertrend_recurrence [10, 11] [8, 9] [9, 10] 10 3 rfl rfl 0 (by norm_num)⟩

/-- Claim C4: the archive Supertrend (flip rule against the previous supertrend
value, down-seeded) and the trend.py Supertrend (flip rule against the previous
final bands, up-seeded) are not extensionally equal: a one-bar input already
produces different direction and supertrend series. -/
theorem c4_supertrend_implementations_differ :
    ∃ (high low close : List ℚ),
      (calculate_supertrend high low close 10 3).2 ≠ (supertrend high low close 10 3).2 ∧
      (calculate_supertrend high low close 10 3).1 ≠ (supertrend high low close 10 3).1 := by
  refine ⟨[10], [9], [19/2], ?_, ?_⟩
  · norm_num [calculate_supertrend, stPairs, final_ub, final_lb, basic_ub, basic_lb,
      hl2, calculate_atr, ewmMean, ewmGo, ewmStep, ewmOut, trList, oadd, osub, omul,
      stGo, stepST, adjustGo, ubStep, lbStep, supertrend, final_upper, final_lower,
      upperband, lowerband, st_atr, stGoT, stepT, cmpTrend, fuStepT, flStepT,
      pymin, pymax]
  · norm_num [calculate_supertrend, stPairs, final_ub, final_lb, basic_ub, basic_lb,
      hl2, calculate_atr, ewmMean, ewmGo, ewmStep, ewmOut, trList, oadd, osub, omul,
      stGo, stepST, adjustGo, ubStep, lbStep, supertrend, final_upper, final_lower,
      upperband, lowerband, st_atr, stGoT, stepT, cmpTrend, fuStepT, flStepT,
      pymin, pymax]
    simp

/-- Claim C5 (counterexample): for input `[3,0,0]` and period 3, the smoother
is NaN at position 1 and its first defined output (position 2) is the
adjust=False recurrence value `4/3`, not the simple mean `1` of the first three
inputs that the claim demands. -/
theorem c5_seed_is_not_simple_mean :
    (ewmMean (1 / (3 : ℚ)) 3 ([3, 0, 0].map some)).getD 1 none = none ∧
    (ewmMean (1 / (3 : ℚ)) 3 ([3, 0, 0].map some)).getD 2 none = some (4 / 3) ∧
    ¬ (ewmMean (1 / (3 : ℚ)) 3 ([3, 0, 0].map some)).getD 2 none
        = some (((3 : ℚ) + 0 + 0) / 3) := by
  refine ⟨?_, ?_, ?_⟩ <;> norm_num [ewmMean, ewmGo, ewmStep, ewmOut]

/-- Claim C5 (amended): the Wilder smoother is NaN until `period` valid inputs
have been seen, and each defined output equals the `alpha = 1/period`
recurrence seeded with the *first input value* (pandas `adjust=False`), not an
SMA seed: `E[0] = x[0]`, `E[i+1] = (1-1/p)·E[i] + (1/p)·x[i+1]`, output at `i`
defined iff `i + 1 ≥ period`. -/
theorem c5_wilder_smoothing (xs : List ℚ) (p : ℕ) (i : ℕ) (hi : i < xs.length) :
    (ewmMean (1 / (p : ℚ)) p (xs.map some)).getD i none =
      if i + 1 < p then none else some (emaFrom (1 / (p : ℚ)) xs i) :=
  ewmMean_map_some (1 / (p : ℚ)) p xs i hi

/-- Witness for C5 (amended) at `xs = [5,7,9]`, `p = 3`, `i = 2`. -/
theorem c5_wilder_smoothing_witness :
    (2 : ℕ) < ([5, 7, 9] : List ℚ).length ∧
    (ewmMean (1 / (3 : ℚ)) 3 ([5, 7, 9].map some)).getD 2 none =
      (if 2 + 1 < 3 then none else some (emaFrom (1 / (3 : ℚ)) [5, 7, 9] 2)) :=
  ⟨by norm_num, c5_wilder_smoothing [5, 7, 9] 3 2 (by norm_num)⟩

/-- Claim C6: at position 0 of a two-bar close series with period 14 — fewer
bars than the kernel's minimum window — the RSI output is the numeric value
100, not NaN: the trailing `fillna(100)` also fills the warm-up NaNs that
`min_periods = period` produced. -/
theorem c6_rsi_warmup_is_numeric_100 :
    (calculate_rsi_series [100, 101] 14).getD 0 none = some 100 ∧
    (calculate_rsi_series [100, 101] 14).getD 0 none ≠ none := by
  have h : (calculate_rsi_series [100, 101] 14).getD 0 none = some 100 := by
    norm_num [calculate_rsi_series, fillna, rsiPre, rsL, avg_gain, avg_loss, gains,
      losses, diffL, ewmMean, ewmGo, ewmStep, ewmOut, odiv, oadd, osub, replZeroNaN,
      roundTo, rhe, Int.fract]
  exact ⟨h, by rw [h]; simp⟩

/-- Claim C7: wherever the Wilder-smoothed average loss is defined and equals
zero, the RSI kernel outputs exactly 100 (the post-hoc `fillna(100)` override
after the zero denominator was replaced by NaN), surviving the 2-decimal
rounding. -/
theorem c7_rsi_avg_loss_zero (close : List ℚ) (p : ℕ) (i : ℕ)
    (h0 : (avg_loss close p).getD i none = some 0) :
    (calculate_rsi_series close p).getD i none = some 100 := by
  have hi : i < close.length := by
    by_contra hge
    rw [getD_of_length_le _ _ _ (by rw [avg_loss_length]; omega)] at h0
    exact Option.noConfusion h0
  have hrs : (rsL close p).getD i none = none := by
    unfold rsL
    rw [getD_zipWith odiv _ _ i none none none (by rw [avg_gain_length]; exact hi)
      (by rw [List.length_map, avg_loss_length]; exact hi)]
    rw [getD_map replZeroNaN _ i none none (by rw [avg_loss_length]; exact hi), h0]
    cases (avg_gain close p).getD i none <;> simp [odiv, replZeroNaN]
  have hpre : (rsiPre close p).getD i none = none := by
    unfold rsiPre
    rw [getD_map _ _ i none none (by rw [rsL_length]; exact hi), hrs]
    rfl
  unfold calculate_rsi_series
  rw [getD_map _ _ i none none (by simp [fillna, rsiPre_length]; exact hi)]
  unfold fillna
  rw [getD_map _ _ i none none (by rw [rsiPre_length]; exact hi), hpre]
  norm_num [roundTo, rhe, Int.fract]

/-- Witness for C7: a strictly increasing 15-bar close series with period 14
has average loss 0 at position 14, so `rsi_14` is exactly 100 there. -/
theorem c7_rsi_avg_loss_zero_witness :
    (avg_loss [1, 2, 3, 4, 5, 6, 7, 8, 9, 10, 11, 12, 13, 14, 15] 14).getD 14 none
        = some 0 ∧
    (calculate_rsi_series [1, 2, 3, 4, 5, 6, 7, 8, 9, 10, 11, 12, 13, 14, 15] 14).getD
        14 none = some 100 :=
  ⟨by norm_num [avg_loss, losses, diffL, ewmMean, ewmGo, ewmStep, ewmOut],
   c7_rsi_avg_loss_zero [1, 2, 3, 4, 5, 6, 7, 8, 9, 10, 11, 12, 13, 14, 15] 14 14
     (by norm_num [avg_loss, losses, diffL, ewmMean, ewmGo, ewmStep, ewmOut])⟩

/-- Claim C8 (counterexample): on the close series `[1, 2]` the returned macd
value differs from the unrounded macd line rounded to 4 decimals — the source
rounds to 2 decimals (`0.08`, not `0.0798`). -/
theorem c8_macd_not_rounded_to_4dp :
    (calculate_macd [1, 2]).1.getD 1 none ≠
      Option.map (roundTo 4) ((macdLine [1, 2]).getD 1 none) := by
  norm_num [calculate_macd, macdLine, ewmMean, ewmGo, ewmStep, ewmOut, osub,
    roundTo, rhe, Int.fract]

/-- Claim C8 (amended): the returned macd and signal values equal the unrounded
macd line (`ema12 - ema26`) and signal line (span-9 EMA of the unrounded macd
line) rounded to **2** decimal places. -/
theorem c8_macd_rounded_to_2dp (close : List ℚ) (i : ℕ) :
    (calculate_macd close).1.getD i none =
        Option.map (roundTo 2) ((macdLine close).getD i none) ∧
    (calculate_macd close).2.getD i none =
        Option.map (roundTo 2) ((signalLine close).getD i none) := by
  constructor
  · by_cases hi : i < (macdLine close).length
    · exact getD_map _ _ i none none hi
    · have hle : (macdLine close).length ≤ i := Nat.le_of_not_lt hi
      have h1 : (calculate_macd close).1 =
          (macdLine close).map (Option.map (roundTo 2)) := rfl
      rw [h1, getD_of_length_le _ _ _ (by simpa using hle),
        getD_of_length_le _ _ _ hle]
      rfl
  · by_cases hi : i < (signalLine close).length
    · exact getD_map _ _ i none none hi
    · have hle : (signalLine close).length ≤ i := Nat.le_of_not_lt hi
      have h2 : (calculate_macd close).2 =
          (signalLine close).map (Option.map (roundTo 2)) := rfl
      rw [h2, getD_of_length_le _ _ _ (by simpa using hle),
        getD_of_length_le _ _ _ hle]
      rfl

/-- Claim C1 (the code evaluated at the failing input): the equity record
carries 21 parameters (`is_final` included) while the equity insert template
has 20 placeholders, so sqlite3 reports a binding-count mismatch for every
well-formed record — no equity upsert completes without raising. -/
theorem c1_equity_upsert_raises (symbol_id : ℤ) (timeframe : String)
    (r : EqRowSrc) (store : List (List Val)) :
    (equityRecord symbol_id timeframe r).length = 21 ∧
    placeholderCount insertSqlEquityValues = 20 ∧
    equityInsertColumns.length = 20 ∧
    sqliteExecute insertSqlEquityValues store (equityRecord symbol_id timeframe r)
      = Except.error (SqlError.bindingCountMismatch 21 20) := by
  have hph : placeholderCount insertSqlEquityValues = 20 := by decide
  refine ⟨rfl, hph, rfl, ?_⟩
  simp [sqliteExecute, equityRecord, hph]

/-- Claim C2 (counterexample): with a one-bar index store, the second refresh
run performs 1 upsert write, not zero — `refresh_indicators` re-reads the full
history and re-upserts every row on every run. -/
theorem c2_second_run_writes_again :
    (refresh_index_indicators [(1, [⟨1, 10, 10, 10, 10, 10⟩])] ["1d"]
        (refresh_index_indicators [(1, [⟨1, 10, 10, 10, 10, 10⟩])] ["1d"]
          fun _ => none).1).2 = 1 ∧ (1 : ℕ) ≠ 0 := by
  constructor
  · simp [refresh_index_indicators, refreshOps, indexRecords]
  · omega

/-- Claim C2 (amended): rerunning the refresh with an unchanged PriceBar store
performs exactly as many upsert writes as the first run (one per
(entity, timeframe, date) row), and the second run leaves the indicator store
unchanged. -/
theorem c2_rerun_writes_and_state (ps : List (ℤ × List IxBar))
    (tfs : List String) (st : IxStore) :
    (refresh_index_indicators ps tfs (refresh_index_indicators ps tfs st).1).2
        = (refresh_index_indicators ps tfs st).2 ∧
    (refresh_index_indicators ps tfs (refresh_index_indicators ps tfs st).1).1
        = (refresh_index_indicators ps tfs st).1 :=
  ⟨rfl, applyOps_idem st (refreshOps ps tfs)⟩

/-- Claim C10: `sys` is not among the names bound in
`src/services/indicator_service.py`, so when a kernel raises inside
`calculate_indicators` the except handler itself raises NameError; the fallback
branch returning the original DataFrame is unreachable and the exception
reaches the per-symbol handler of `refresh_indicators`, which skips the
symbol. -/
theorem c10_handler_raises_nameerror {α σ : Type} (transform : α → α) (df : α)
    (write : α → σ → σ) (st : σ) :
    "sys" ∉ indicator_service_bound_names ∧
    calculate_indicators_outcome true transform df = .raisedNameError "sys" ∧
    (∀ d : α, calculate_indicators_outcome true transform df ≠ .ok d) ∧
    per_symbol_step true transform df write st = st := by
  have hmem : "sys" ∉ indicator_service_bound_names := by decide
  refine ⟨hmem, ?_, ?_, ?_⟩ <;>
    simp [calculate_indicators_outcome, exceptHandlerOutcome, per_symbol_step, hmem]

end MarketData
